import Mathlib

/-!
Shallow embedding of the Timelog Obsidian plugin (src/main.ts): the header
classifier (extractHeaderDate, isNormalHeader), the logged-line classifier
(isLoggedLine), the log-context detector (shouldInsertLine with its rate
limit isWithinInterval and upward scan), the header navigator
(findLatestDatedHeader), the line inserter (insertLogLine) and the
jump-to-latest-log-header command. Lines are lists of characters; a
document is a list of lines. The daily-note header pattern is specialised
to the default YYYY-MM-DD and the log timestamp pattern to the default
HH:mm, the two formats the plugin uses out of the box.
-/

namespace Timelog

/-- One row of the document, as a list of UTF-16-ish code points. -/
abbrev Line := List Char

/-- A string literal as a Line. -/
def ofStr (s : String) : Line := s.data

/-- The whitespace class as JS trim and the regex class \s see it for the
characters that occur in this development. -/
def isWS (c : Char) : Bool := c == ' ' || c == '\t' || c == '\n' || c == '\r'

/-- Leading-whitespace strip, the front half of String.prototype.trim. -/
def dropLeadWS (cs : Line) : Line := cs.dropWhile isWS

/-- Trailing-whitespace strip, the back half of String.prototype.trim. -/
def dropTrailWS : Line → Line
  | [] => []
  | c :: cs =>
    match dropTrailWS cs with
    | [] => if isWS c then [] else [c]
    | r => c :: r

/-- JS String.prototype.trim. -/
def jsTrim (cs : Line) : Line := dropTrailWS (dropLeadWS cs)

/-- Digit string to number, for two- and four-digit groups. -/
def digitsToNat (ds : List Char) : Nat :=
  ds.foldl (fun a c => 10 * a + (c.toNat - 48)) 0

/-- A parsed calendar date, the value a successful header parse carries. -/
structure YMD where
  year : Nat
  month : Nat
  day : Nat
deriving DecidableEq, Repr

/-- Chronological key: for calendar dates the lexicographic (year, month,
day) order agrees with the order of the instants moment compares. -/
def ymdKey (d : YMD) : Nat := d.year * 10000 + d.month * 100 + d.day

/-- moment a.isAfter(b). -/
def isAfter (a b : YMD) : Bool := decide (ymdKey b < ymdKey a)

/-- Gregorian leap year, as moment computes month lengths. -/
def isLeap (y : Nat) : Bool := (y % 4 == 0 && y % 100 != 0) || y % 400 == 0

/-- Days in a month, for the strict-parse overflow check. -/
def daysInMonth (y m : Nat) : Nat :=
  if m == 2 then (if isLeap y then 29 else 28)
  else if m == 4 || m == 6 || m == 9 || m == 11 then 30
  else 31

/-- moment(text, pattern, true) for the default daily-note pattern
YYYY-MM-DD: in strict mode the whole text must be four digits, a hyphen,
two digits, a hyphen and two digits with nothing left over, and the values
must survive the overflow check (month 1..12, day 1..daysInMonth). -/
def parseStrictYMD (cs : Line) : Option YMD :=
  match cs with
  | [y1, y2, y3, y4, s1, m1, m2, s2, d1, d2] =>
    if y1.isDigit && y2.isDigit && y3.isDigit && y4.isDigit &&
        s1 == '-' && m1.isDigit && m2.isDigit && s2 == '-' &&
        d1.isDigit && d2.isDigit then
      let y := digitsToNat [y1, y2, y3, y4]
      let m := digitsToNat [m1, m2]
      let d := digitsToNat [d1, d2]
      if 1 ≤ m && m ≤ 12 && 1 ≤ d && d ≤ daysInMonth y m then
        some ⟨y, m, d⟩
      else none
    else none
  | _ => none

/-- The characters before the earliest "]]", when one occurs. -/
def splitAtCloser : Line → Option Line
  | ']' :: ']' :: _ => some []
  | c :: rest => (splitAtCloser rest).map (c :: ·)
  | [] => none

/-- First match of the regex \[\[(.+?)\]\] in the line: the leftmost "[["
that is followed, after at least one character, by a "]]"; the capture runs
to the earliest such "]]". -/
def linkInner : Line → Option Line
  | [] => none
  | c :: rest =>
    if c == '[' then
      match rest with
      | '[' :: r2 =>
        match r2 with
        | d :: r3 =>
          match splitAtCloser r3 with
          | some inner => some (d :: inner)
          | none => linkInner rest
        | [] => none
      | _ => linkInner rest
    else linkInner rest

/-- split('|')[0]: the segment before the first pipe. -/
def beforePipe (cs : Line) : Line := cs.takeWhile (fun c => c != '|')

/-- extractHeaderDate (src/main.ts:163-176): trim the line, require a
leading heading marker, strip the run of markers and following whitespace,
trim, unwrap the first wiki link when one occurs, cut at the first pipe and
parse strictly against the daily-note pattern. -/
def extractHeaderDate (line : Line) : Option YMD :=
  let trimmed := jsTrim line
  if trimmed.head? = some '#' then
    let content := jsTrim ((trimmed.dropWhile (fun c => c == '#')).dropWhile isWS)
    let linkContent := match linkInner content with
      | some inner => inner
      | none => content
    parseStrictYMD (beforePipe linkContent)
  else none

/-- isNormalHeader (src/main.ts:275-277): line.startsWith, with no trim. -/
def isNormalHeader (line : Line) : Bool := line.head? == some '#'

/-- isLogHeader (src/main.ts:271-273). -/
def isLogHeader (line : Line) : Bool := (extractHeaderDate line).isSome

/-! ## Logged-line classifier -/

/-- The character class [-\s]. -/
def isHyphenWS (c : Char) : Bool := c == '-' || isWS c

/-- line.replace with the anchored class regex on [-\s] and the global
flag: the anchor lets the class match only at position zero, so at most
one leading character is removed. -/
def replaceLeadHyphenWS : Line → Line
  | [] => []
  | c :: cs => if isHyphenWS c then cs else c :: cs

/-- line.replace removing every emphasis marker. -/
def removeStars (cs : Line) : Line := cs.filter (fun c => c != '*')

/-- Earliest match of the regex \d\d? : the first run of one or two digits
in the text, with what follows the run. -/
def firstDigitRun12 : Line → Option (List Char × Line)
  | [] => none
  | c :: cs =>
    if c.isDigit then
      match cs with
      | d :: ds => if d.isDigit then some ([c, d], ds) else some ([c], cs)
      | [] => some ([c], [])
    else firstDigitRun12 cs

/-- Everything after the first colon; the whole text when none occurs. -/
def dropThroughColon (cs : Line) : Line :=
  match cs.dropWhile (fun c => c != ':') with
  | _ :: r => r
  | [] => cs

/-- Model of the external moment library at the call moment(l, logFormat)
with the default pattern HH:mm and NO strict flag, as src/main.ts:288
invokes it. Lenient matching searches the remaining input for each token
regex: HH takes the first one-or-two-digit run anywhere, the literal colon
consumes through the first colon that follows, mm takes the next digit run;
unmatched tokens default (minute to zero) and skipped characters are
ignored. The result is valid when at least one token matched and the hour
and minute survive the overflow check (hour up to 24, 24 only with minute
zero, minute up to 59). -/
def momentLenientHHmm (cs : Line) : Bool :=
  match firstDigitRun12 cs with
  | none => false
  | some (hd, rest) =>
    let h := digitsToNat hd
    let m := match firstDigitRun12 (dropThroughColon rest) with
      | none => 0
      | some (md, _) => digitsToNat md
    h ≤ 24 && (h != 24 || m == 0) && m ≤ 59

/-- isLoggedLine (src/main.ts:279-289) at the default log format HH:mm:
remove one leading hyphen-or-whitespace character, remove every emphasis
marker, take the prefix of the length of the pattern (five characters) and
hand it to the lenient moment parse. -/
def isLoggedLine (line : Line) : Bool :=
  momentLenientHHmm (List.take 5 (removeStars (replaceLeadHyphenWS line)))

/-! ## Detector -/

/-- The persisted settings the detector reads (replacementInterval in
seconds, useList); the log format is fixed at its default HH:mm. -/
structure Settings where
  replacementInterval : Nat
  useList : Bool
deriving DecidableEq, Repr

/-- isWithinInterval (src/main.ts:258-269): instants are epoch
milliseconds; the check blocks while the elapsed time since the recorded
last replacement is under replacementInterval seconds. -/
def isWithinInterval (interval : Nat) (lastReplacement : Option Int) (now : Int) : Bool :=
  match lastReplacement with
  | some t => if now - t < (interval : Int) * 1000 then false else true
  | none => true

/-- editor.getLine over the document model. -/
def getLine (lines : List Line) (i : Nat) : Line := (lines.get? i).getD []

/-- line.indexOf of the two-character emphasis opener compared with zero. -/
def startsTwoStars : Line → Bool
  | '*' :: '*' :: _ => true
  | _ => false

/-- The while loop of shouldInsertLine (src/main.ts:244-252): from the
cursor line walk indices downward; a dated header answers true, any other
line with a leading heading marker answers false, exhaustion answers
false. scanUp lines c inspects lines c-1, c-2, ..., 0. -/
def scanUp (lines : List Line) : Nat → Bool
  | 0 => false
  | n + 1 =>
    let line := getLine lines n
    if isLogHeader line then true
    else if isNormalHeader line then false
    else scanUp lines n

/-- shouldInsertLine (src/main.ts:210-255): rate limit, double-log guard,
list-mode gate (only under useList) and the upward ancestry scan. -/
def shouldInsertLine (s : Settings) (lastReplacement : Option Int) (now : Int)
    (lines : List Line) (cursorLine : Nat) : Bool :=
  if !(isWithinInterval s.replacementInterval lastReplacement now) then false
  else
    let line := getLine lines cursorLine
    if isLoggedLine line then false
    else
      let hasList := (jsTrim line).head? == some '*'
      let isNested := line.head? == some '\t'
      if s.useList then
        if startsTwoStars line then false
        else if isNested then false
        else if !hasList then false
        else scanUp lines cursorLine
      else scanUp lines cursorLine

/-! ## Navigator -/

/-- The loop body state of findLatestDatedHeader: the best (line, date) so
far, replaced only when the parsed date is strictly after the tracked one. -/
def findAux : List Line → Nat → Option (Nat × YMD) → Option (Nat × YMD)
  | [], _, best => best
  | l :: ls, i, best =>
    match extractHeaderDate l with
    | none => findAux ls (i + 1) best
    | some d =>
      match best with
      | none => findAux ls (i + 1) (some (i, d))
      | some (bi, bd) =>
        if isAfter d bd then findAux ls (i + 1) (some (i, d))
        else findAux ls (i + 1) (some (bi, bd))

/-- findLatestDatedHeader (src/main.ts:143-161). -/
def findLatestDatedHeader (lines : List Line) : Option Nat :=
  (findAux lines 0 none).map Prod.fst

/-! ## Editor mutation model -/

/-- A cursor position: zero-based line and column. -/
structure Pos where
  line : Nat
  ch : Nat
deriving DecidableEq, Repr

/-- The line buffer and cursor an Editor exposes. -/
structure EditorState where
  lines : List Line
  cursor : Pos
deriving DecidableEq, Repr

/-- Split on newline characters; always at least one segment. -/
def splitNL : Line → List Line
  | [] => [[]]
  | c :: cs =>
    match splitNL cs with
    | [] => [[]]
    | s :: ss => if c == '\n' then [] :: s :: ss else (c :: s) :: ss

/-- Append a suffix to the last segment. -/
def withPost (post : Line) : List Line → List Line
  | [] => [post]
  | [s] => [s ++ post]
  | s :: rest => s :: withPost post rest

/-- The lines that replace the target line once text is spliced in at a
column: the part before the column joins the first segment, the part after
joins the last. -/
def replacementLines (pre post : Line) : List Line → List Line
  | [] => [pre ++ post]
  | [s] => [pre ++ s ++ post]
  | s :: rest => (pre ++ s) :: withPost post rest

/-- editor.replaceRange with a collapsed range: insert text at (l, ch),
splitting the target line at every newline of the text. A column past the
end of the line clamps to the end, as the host buffer does. -/
def insertTextAt (lines : List Line) (l ch : Nat) (text : Line) : List Line :=
  let cur := getLine lines l
  lines.take l ++ replacementLines (cur.take ch) (cur.drop ch) (splitNL text) ++
    lines.drop (l + 1)

/-- JS line.indexOf, specialised to the emphasis marker: the first index
holding a star, none when the line has none. -/
def idxStar? : Line → Option Nat
  | [] => none
  | c :: cs => if c == '*' then some 0 else (idxStar? cs).map (· + 1)

/-- line.indexOf as JS returns it: the index, or -1 when absent. -/
def idxOfStar (cs : Line) : Int :=
  match idxStar? cs with
  | some i => (i : Int)
  | none => -1

/-- The insertion column of insertLogLine (src/main.ts:123): two past the
first emphasis marker; with none present, indexOf yields -1 and the column
is 1. -/
def insertOffset (line : Line) : Nat := (idxOfStar line + 2).toNat

/-- The inserted text: the bold-wrapped timestamp, a colon and a space. -/
def logHeaderText (stamp : Line) : Line :=
  '*' :: '*' :: (stamp ++ ['*', '*', ':', ' '])

/-- insertLogLine (src/main.ts:118-133): splice the log header into the
cursor line at the computed offset, advance the cursor column by the
inserted length, and record the instant of this replacement. stamp is the
timestamp text the external moment formatter produced. Returns the new
editor state and the new lastReplacement instant. -/
def insertLogLine (st : EditorState) (stamp : Line) (now : Int) :
    EditorState × Option Int :=
  let line := getLine st.lines st.cursor.line
  let offset := insertOffset line
  let lines1 := insertTextAt st.lines st.cursor.line offset (logHeaderText stamp)
  (⟨lines1, ⟨st.cursor.line, st.cursor.ch + (logHeaderText stamp).length⟩⟩, some now)

/-- The jump-to-latest-log-header command (src/main.ts:78-102): with no
dated header, a notice and no mutation; otherwise, when the header is the
last line, a newline is first inserted at the end of the header text, and
the cursor lands at column zero of the line under the header. noticed
records whether the no-header notice was shown. -/
def jumpToLatestLogHeader (st : EditorState) : EditorState × Bool :=
  match findLatestDatedHeader st.lines with
  | none => (st, true)
  | some targetLine =>
    let lines1 :=
      if st.lines.length ≤ targetLine + 1 then
        insertTextAt st.lines targetLine (getLine st.lines targetLine).length ['\n']
      else st.lines
    let cursorLine := min (targetLine + 1) (lines1.length - 1)
    (⟨lines1, ⟨cursorLine, 0⟩⟩, false)

/-! ## The logged-line classifier as the specification words it -/

/-- The logged-line classifier exactly as the specification describes it:
strip one leading RUN of hyphen/whitespace characters, strip every
emphasis marker, take the prefix of the pattern length and parse it
STRICTLY; for HH:mm the strict parse demands two digits, a colon and two
digits with nothing left over, and values inside the overflow bounds. -/
def strictHHmmValid (cs : Line) : Bool :=
  match cs with
  | [a, b, ':', x, y] =>
    a.isDigit && b.isDigit && x.isDigit && y.isDigit &&
      (let h := digitsToNat [a, b]
       let m := digitsToNat [x, y]
       h ≤ 24 && (h != 24 || m == 0) && m ≤ 59)
  | _ => false

/-- The claimed classifier, to compare with isLoggedLine. -/
def claimLoggedLine (line : Line) : Bool :=
  strictHHmmValid (List.take 5 (removeStars (line.dropWhile isHyphenWS)))

/-! ## Fixed documents used by the witnesses -/

/-- C2 witness document. -/
def demoBullet : List Line := [ofStr "- "]

/-- C3 witness document: a star bullet under a dated header. -/
def demoStarDoc : List Line := [ofStr "## [[2024-05-11]]", ofStr "* item"]

/-- C1 witness document: generic header, then dated header, then bullet. -/
def demoAncestry : List Line :=
  [ofStr "# Notes", ofStr "## [[2024-05-11]]", ofStr "- item"]

/-- C10 witness document. -/
def demoFrameDoc : List Line := [ofStr "## [[2024-05-11]]", ofStr "- item", ofStr "x"]

/-! ## Helper lemmas -/

lemma dropTrailWS_head_of_not_ws (c : Char) (cs : Line) (h : isWS c = false) :
    (dropTrailWS (c :: cs)).head? = some c := by
  simp only [dropTrailWS]
  cases hrec : dropTrailWS cs with
  | nil => simp [h]
  | cons a l => simp

lemma idxStar?_eq_none (line : Line) (h : '*' ∉ line) : idxStar? line = none := by
  induction line with
  | nil => rfl
  | cons c cs ih =>
    simp only [List.mem_cons, not_or] at h
    have hc : (c == '*') = false := by
      simp only [beq_eq_false_iff_ne]
      exact fun hcc => h.1 hcc.symm
    simp [idxStar?, hc, ih h.2]

lemma idxStar?_eq_some (line : Line) (p : Nat)
    (hp : line.get? p = some '*') (hq : ∀ q, q < p → line.get? q ≠ some '*') :
    idxStar? line = some p := by
  induction line generalizing p with
  | nil => simp at hp
  | cons c cs ih =>
    by_cases hc : c = '*'
    · cases p with
      | zero => simp [idxStar?, hc]
      | succ n =>
        exact absurd (by simp [hc]) (hq 0 (Nat.succ_pos n))
    · cases p with
      | zero =>
        rw [List.get?_cons_zero] at hp
        exact absurd (Option.some.inj hp) hc
      | succ n =>
        rw [List.get?_cons_succ] at hp
        have hq' : ∀ q, q < n → cs.get? q ≠ some '*' := by
          intro q hqn
          have := hq (q + 1) (Nat.succ_lt_succ hqn)
          rwa [List.get?_cons_succ] at this
        have hcb : (c == '*') = false := by
          simp only [beq_eq_false_iff_ne]; exact hc
        simp [idxStar?, hcb, ih n hp hq']

lemma splitNL_no_newline (text : Line) (h : '\n' ∉ text) : splitNL text = [text] := by
  induction text with
  | nil => rfl
  | cons c cs ih =>
    simp only [List.mem_cons, not_or] at h
    have hc : (c == '\n') = false := by
      simp only [beq_eq_false_iff_ne]
      exact fun hcc => h.1 hcc.symm
    simp [splitNL, ih h.2, hc]

lemma insertTextAt_no_newline (lines : List Line) (l ch : Nat) (text : Line)
    (hl : l < lines.length) (h : '\n' ∉ text) :
    insertTextAt lines l ch text =
      lines.set l ((getLine lines l).take ch ++ text ++ (getLine lines l).drop ch) := by
  rw [insertTextAt, splitNL_no_newline text h, List.set_eq_take_cons_drop _ hl]
  simp [replacementLines]

lemma logHeaderText_no_newline (stamp : Line) (h : '\n' ∉ stamp) :
    '\n' ∉ logHeaderText stamp := by
  intro hmem
  simp only [logHeaderText, List.mem_cons, List.mem_append] at hmem
  rcases hmem with h1 | h1 | h1 | h1
  · exact absurd h1 (by decide)
  · exact absurd h1 (by decide)
  · exact h h1
  · exact absurd h1 (by decide)

lemma logHeaderText_length (stamp : Line) :
    (logHeaderText stamp).length = stamp.length + 6 := by
  simp [logHeaderText]

/-! ## C5: rate limiting -/

/-- C5: when a last-insertion instant is recorded and the elapsed time is
under replacementInterval seconds, shouldInsertLine answers false whatever
the document; once the interval has passed (for example 31 seconds after a
last insertion against a 30 second interval) the rate check alone no
longer blocks; and with no recorded instant it never blocks. Instants are
epoch milliseconds of the external clock. -/
theorem rate_limit_spec :
    (∀ (s : Settings) (lines : List Line) (c : Nat) (t now : Int),
        now - t < (s.replacementInterval : Int) * 1000 →
        shouldInsertLine s (some t) now lines c = false) ∧
    (∀ (interval : Nat) (t now : Int),
        (interval : Int) * 1000 ≤ now - t →
        isWithinInterval interval (some t) now = true) ∧
    (∀ t : Int, isWithinInterval 30 (some t) (t + 31000) = true) ∧
    (∀ (interval : Nat) (now : Int), isWithinInterval interval none now = true) := by
  refine ⟨fun s lines c t now h => ?_, fun interval t now h => ?_, fun t => ?_,
    fun interval now => rfl⟩
  · simp [shouldInsertLine, isWithinInterval, h]
  · simp only [isWithinInterval]
    rw [if_neg (not_lt.mpr h)]
  · simp only [isWithinInterval]
    rw [if_neg (by push_cast; omega)]

/-! ## C7: strict header-date parsing and link unwrapping -/

/-- C7: against the daily-note pattern YYYY-MM-DD the header parse is
strict, so "## 2024-5-11" yields nothing while "## 2024-05-11" yields
May 11 2024; and a wiki link with a display alias parses identically to
its bare inner date, the text before the first pipe. -/
theorem extractHeaderDate_strict_and_link :
    extractHeaderDate (ofStr "## 2024-5-11") = none ∧
    extractHeaderDate (ofStr "## 2024-05-11") = some ⟨2024, 5, 11⟩ ∧
    extractHeaderDate (ofStr "## [[2024-05-11|Notes]]")
      = extractHeaderDate (ofStr "## 2024-05-11") := by
  exact ⟨by decide, by decide, by decide⟩

/-! ## C8: normal headers -/

/-- C8 counterexample: the line with a blank before the heading marker is
a dated header (extractHeaderDate trims first) yet isNormalHeader, which
does not trim, answers false — so not every dated header is a normal
header. -/
theorem dated_header_not_normal_cex :
    extractHeaderDate (ofStr " ## 2024-05-11") = some ⟨2024, 5, 11⟩ ∧
    isNormalHeader (ofStr " ## 2024-05-11") = false := by decide

/-- C8 amended: isNormalHeader holds exactly of lines whose FIRST character
is the heading marker, and a dated header is a normal header provided its
line carries no leading whitespace; with leading whitespace the two
classifiers come apart, as the counterexample shows. -/
theorem isNormalHeader_spec (line : Line) :
    (isNormalHeader line = true ↔ line.head? = some '#') ∧
    (extractHeaderDate line ≠ none →
      (∀ c, line.head? = some c → isWS c = false) →
      isNormalHeader line = true) := by
  constructor
  · simp [isNormalHeader]
  · intro hx hws
    have htrim : (jsTrim line).head? = some '#' := by
      by_contra hcond
      exact hx (by simp [extractHeaderDate, hcond])
    cases line with
    | nil => simp [jsTrim, dropLeadWS, dropTrailWS] at htrim
    | cons c rest =>
      have hc : isWS c = false := hws c rfl
      have : (jsTrim (c :: rest)).head? = some c := by
        rw [jsTrim, dropLeadWS, List.dropWhile_cons]
        rw [hc]
        simp only [Bool.false_eq_true, if_false]
        exact dropTrailWS_head_of_not_ws c rest hc
      rw [this] at htrim
      have : c = '#' := Option.some.inj htrim
      simp [isNormalHeader, this]

/-! ## C4: the logged-line classifier -/

/-- C4 counterexample: on the plain bullet "- 8" the code classifies the
line as already logged (the lenient moment parse accepts the leftover
prefix " 8" as hour 8), while the claimed procedure — strip the whole
leading run, then parse the prefix strictly — rejects it; the claimed
equivalence fails at this line. -/
theorem isLoggedLine_lenient_cex :
    isLoggedLine (ofStr "- 8") = true ∧ claimLoggedLine (ofStr "- 8") = false := by decide

/-- C4 amended: isLoggedLine removes at most ONE leading hyphen-or-
whitespace character (the anchored class regex carries no quantifier),
removes every emphasis marker, takes the five-character prefix (the length
of the pattern HH:mm) and accepts exactly when the lenient moment parse —
the source passes no strict flag — accepts that prefix; the round-trip
behaviour the specification lists still holds. -/
theorem isLoggedLine_amended (c : Char) (line : Line) :
    (isHyphenWS c = true →
        isLoggedLine (c :: line) = momentLenientHHmm (List.take 5 (removeStars line))) ∧
    (isHyphenWS c = false →
        isLoggedLine (c :: line)
          = momentLenientHHmm (List.take 5 (removeStars (c :: line)))) ∧
    isLoggedLine (ofStr "- **08:45**: rest") = true ∧
    isLoggedLine (ofStr "- plain bullet") = false := by
  refine ⟨fun h => ?_, fun h => ?_, by decide, by decide⟩
  · simp [isLoggedLine, replaceLeadHyphenWS, h]
  · simp [isLoggedLine, replaceLeadHyphenWS, h]

/-! ## C2: the insertion offset -/

/-- C2 counterexample: on the line "- ", which has no emphasis marker, the
insertion offset is 1 (indexOf yields -1 and the code adds 2), not the
claimed 0; the prefix lands between the hyphen and the blank. -/
theorem insertOffset_no_star_cex :
    insertOffset (ofStr "- ") = 1 ∧ insertOffset (ofStr "- ") ≠ 0 ∧
    (insertLogLine ⟨[ofStr "- "], ⟨0, 2⟩⟩ (ofStr "08:45") 0).1.lines
      = [ofStr "-**08:45**:  "] := by decide

/-- C2 amended: with a first emphasis marker at index p the insertion
offset is p + 2; with no marker anywhere the offset is 1 (indexOf answers
-1, plus 2), not 0. The inserted text is the bold-wrapped timestamp,
colon and space, spliced into the cursor line at that offset, and the new
cursor column is the old column plus the inserted length (stamp length
plus six). -/
theorem insertLogLine_offset_amended (lines : List Line) (l ch : Nat) (stamp : Line)
    (now : Int) (hl : l < lines.length) (hstamp : '\n' ∉ stamp) :
    ('*' ∉ getLine lines l → insertOffset (getLine lines l) = 1) ∧
    (∀ p : Nat, (getLine lines l).get? p = some '*' →
        (∀ q, q < p → (getLine lines l).get? q ≠ some '*') →
        insertOffset (getLine lines l) = p + 2) ∧
    (insertLogLine ⟨lines, ⟨l, ch⟩⟩ stamp now).1.lines =
      lines.set l ((getLine lines l).take (insertOffset (getLine lines l)) ++
        logHeaderText stamp ++
        (getLine lines l).drop (insertOffset (getLine lines l))) ∧
    (insertLogLine ⟨lines, ⟨l, ch⟩⟩ stamp now).1.cursor
      = ⟨l, ch + (stamp.length + 6)⟩ := by
  refine ⟨fun h => ?_, fun p hp hq => ?_, ?_, ?_⟩
  · simp [insertOffset, idxOfStar, idxStar?_eq_none _ h]
  · simp only [insertOffset, idxOfStar, idxStar?_eq_some _ p hp hq]
    omega
  · simp only [insertLogLine]
    exact insertTextAt_no_newline lines l _ _ hl (logHeaderText_no_newline stamp hstamp)
  · simp only [insertLogLine]
    rw [logHeaderText_length]

/-- C2 witness: the amended offset theorem applied to the document whose
one line is "- ", cursor column 2, stamp 08:45. -/
theorem insertLogLine_offset_amended_witness :
    ('*' ∉ getLine demoBullet 0 → insertOffset (getLine demoBullet 0) = 1) ∧
    (∀ p : Nat, (getLine demoBullet 0).get? p = some '*' →
        (∀ q, q < p → (getLine demoBullet 0).get? q ≠ some '*') →
        insertOffset (getLine demoBullet 0) = p + 2) ∧
    (insertLogLine ⟨demoBullet, ⟨0, 2⟩⟩ (ofStr "08:45") 0).1.lines =
      demoBullet.set 0 ((getLine demoBullet 0).take (insertOffset (getLine demoBullet 0)) ++
        logHeaderText (ofStr "08:45") ++
        (getLine demoBullet 0).drop (insertOffset (getLine demoBullet 0))) ∧
    (insertLogLine ⟨demoBullet, ⟨0, 2⟩⟩ (ofStr "08:45") 0).1.cursor
      = ⟨0, 2 + ((ofStr "08:45").length + 6)⟩ :=
  insertLogLine_offset_amended demoBullet 0 2 (ofStr "08:45") 0 (by decide) (by decide)

/-! ## C3: the list-mode gate -/

/-- C3 counterexample: with useList on, the hyphen bullet "- item" sits
under a dated header, is not yet logged and the rate limit does not block,
yet the detector answers false: the gate accepts only the star marker, so
a trimmed line starting with the hyphen marker does NOT pass. -/
theorem list_gate_rejects_hyphen_cex :
    shouldInsertLine ⟨30, true⟩ none 0 [ofStr "## [[2024-05-11]]", ofStr "- item"] 1
        = false ∧
    (jsTrim (ofStr "- item")).head? = some '-' ∧
    scanUp [ofStr "## [[2024-05-11]]", ofStr "- item"] 1 = true ∧
    isLoggedLine (ofStr "- item") = false ∧
    isWithinInterval 30 none 0 = true := by decide

/-- C3 amended: under useList the detector answers false when the trimmed
current line does not start with the star marker (the only marker the code
tests — a hyphen bullet is rejected), false when the line starts with a
tab (the nesting test), and false when the line begins with a completed
emphasis span at column zero; when none of the three exclusions applies
and the rate and double-log checks pass, the gate lets the ancestry scan
decide. -/
theorem shouldInsertLine_list_gate (s : Settings) (lastReplacement : Option Int)
    (now : Int) (lines : List Line) (c : Nat) (huse : s.useList = true) :
    ((jsTrim (getLine lines c)).head? ≠ some '*' →
        shouldInsertLine s lastReplacement now lines c = false) ∧
    ((getLine lines c).head? = some '\t' →
        shouldInsertLine s lastReplacement now lines c = false) ∧
    (startsTwoStars (getLine lines c) = true →
        shouldInsertLine s lastReplacement now lines c = false) ∧
    (isWithinInterval s.replacementInterval lastReplacement now = true →
      isLoggedLine (getLine lines c) = false →
      startsTwoStars (getLine lines c) = false →
      (getLine lines c).head? ≠ some '\t' →
      (jsTrim (getLine lines c)).head? = some '*' →
      shouldInsertLine s lastReplacement now lines c = scanUp lines c) := by
  by_cases hrate : isWithinInterval s.replacementInterval lastReplacement now = true
  · by_cases hlog : isLoggedLine (getLine lines c) = true
    · refine ⟨fun _ => ?_, fun _ => ?_, fun _ => ?_, fun _ hlog2 _ _ _ => ?_⟩ <;>
        simp_all [shouldInsertLine]
    · have hlog' : isLoggedLine (getLine lines c) = false := by
        simpa using hlog
      refine ⟨fun h => ?_, fun h => ?_, fun h => ?_, fun _ _ h2 h3 h4 => ?_⟩
      · have hhas : ((jsTrim (getLine lines c)).head? == some '*') = false := by
          simpa using h
        simp [shouldInsertLine, hrate, hlog', huse, hhas]
      · have hnest : ((getLine lines c).head? == some '\t') = true := by
          simpa using h
        simp [shouldInsertLine, hrate, hlog', huse, hnest]
      · simp [shouldInsertLine, hrate, hlog', huse, h]
      · have hhas : ((jsTrim (getLine lines c)).head? == some '*') = true := by
          simpa using h4
        have hnest : ((getLine lines c).head? == some '\t') = false := by
          simpa using h3
        simp [shouldInsertLine, hrate, hlog', huse, h2, hnest, hhas]
  · have hrate' : isWithinInterval s.replacementInterval lastReplacement now = false := by
      simpa using hrate
    refine ⟨fun _ => ?_, fun _ => ?_, fun _ => ?_, fun h _ _ _ _ => absurd h hrate⟩ <;>
      simp [shouldInsertLine, hrate']

/-- C3 witness: the gate theorem applied with useList on to the document
whose cursor line is the star bullet "* item". -/
theorem shouldInsertLine_list_gate_witness :
    ((jsTrim (getLine demoStarDoc 1)).head? ≠ some '*' →
        shouldInsertLine ⟨30, true⟩ none 0 demoStarDoc 1 = false) ∧
    ((getLine demoStarDoc 1).head? = some '\t' →
        shouldInsertLine ⟨30, true⟩ none 0 demoStarDoc 1 = false) ∧
    (startsTwoStars (getLine demoStarDoc 1) = true →
        shouldInsertLine ⟨30, true⟩ none 0 demoStarDoc 1 = false) ∧
    (isWithinInterval 30 none 0 = true →
      isLoggedLine (getLine demoStarDoc 1) = false →
      startsTwoStars (getLine demoStarDoc 1) = false →
      (getLine demoStarDoc 1).head? ≠ some '\t' →
      (jsTrim (getLine demoStarDoc 1)).head? = some '*' →
      shouldInsertLine ⟨30, true⟩ none 0 demoStarDoc 1 = scanUp demoStarDoc 1) :=
  shouldInsertLine_list_gate ⟨30, true⟩ none 0 demoStarDoc 1 rfl

/-! ## C1: the ancestry scan -/

lemma scanUp_iff (lines : List Line) (c : Nat) :
    scanUp lines c = true ↔
      ∃ j, j < c ∧ isLogHeader (getLine lines j) = true ∧
        ∀ k, j < k → k < c →
          isLogHeader (getLine lines k) = false ∧
          isNormalHeader (getLine lines k) = false := by
  induction c with
  | zero =>
    simp only [scanUp]
    constructor
    · intro h; cases h
    · rintro ⟨j, hj, _⟩; exact absurd hj (Nat.not_lt_zero j)
  | succ n ih =>
    by_cases h1 : isLogHeader (getLine lines n) = true
    · simp only [scanUp, h1, if_true]
      constructor
      · intro _
        exact ⟨n, Nat.lt_succ_self n, h1, fun k hk1 hk2 => absurd hk1 (by omega)⟩
      · intro _; trivial
    · have h1' : isLogHeader (getLine lines n) = false := by simpa using h1
      by_cases h2 : isNormalHeader (getLine lines n) = true
      · have hred : scanUp lines (n + 1) = false := by
          simp [scanUp, h1', h2]
        rw [hred]
        constructor
        · intro h; cases h
        · rintro ⟨j, hj, hlog, hall⟩
          rcases Nat.lt_succ_iff_lt_or_eq.mp hj with hlt | heq
          · exact absurd (hall n hlt (Nat.lt_succ_self n)).2 (by simp [h2])
          · rw [heq] at hlog
            exact absurd hlog (by simp [h1'])
      · have h2' : isNormalHeader (getLine lines n) = false := by simpa using h2
        have hred : scanUp lines (n + 1) = scanUp lines n := by
          simp [scanUp, h1', h2']
        rw [hred, ih]
        constructor
        · rintro ⟨j, hj, hlog, hall⟩
          refine ⟨j, hj.trans (Nat.lt_succ_self n), hlog, fun k hk1 hk2 => ?_⟩
          by_cases hk : k = n
          · rw [hk]; exact ⟨h1', h2'⟩
          · exact hall k hk1 (by omega)
        · rintro ⟨j, hj, hlog, hall⟩
          have hjn : j < n := by
            rcases Nat.lt_succ_iff_lt_or_eq.mp hj with hlt | heq
            · exact hlt
            · rw [heq] at hlog
              exact absurd hlog (by simp [h1'])
          exact ⟨j, hjn, hlog, fun k hk1 hk2 => hall k hk1 (by omega)⟩

/-- C1: when the rate limit, the double-log guard and the list-mode gate
all let the evaluation through, the detector is exactly the upward scan
from the line above the cursor down to line zero: true precisely when some
line below the cursor is a dated header and every line strictly between it
and the cursor is neither a dated header nor a line starting with the
heading marker — so a dated header found first answers true, a generic
heading line found first vetoes, and exhaustion answers false. -/
theorem shouldInsertLine_ancestry (s : Settings) (lastReplacement : Option Int)
    (now : Int) (lines : List Line) (c : Nat)
    (hrate : isWithinInterval s.replacementInterval lastReplacement now = true)
    (hlog : isLoggedLine (getLine lines c) = false)
    (hgate : s.useList = false ∨
      (startsTwoStars (getLine lines c) = false ∧
        (getLine lines c).head? ≠ some '\t' ∧
        (jsTrim (getLine lines c)).head? = some '*')) :
    shouldInsertLine s lastReplacement now lines c = true ↔
      ∃ j, j < c ∧ isLogHeader (getLine lines j) = true ∧
        ∀ k, j < k → k < c →
          isLogHeader (getLine lines k) = false ∧
          isNormalHeader (getLine lines k) = false := by
  have hred : shouldInsertLine s lastReplacement now lines c = scanUp lines c := by
    rcases hgate with huse | ⟨g1, g2, g3⟩
    · simp [shouldInsertLine, hrate, hlog, huse]
    · have hnest : ((getLine lines c).head? == some '\t') = false := by simpa using g2
      have hhas : ((jsTrim (getLine lines c)).head? == some '*') = true := by simpa using g3
      by_cases huse : s.useList = true
      · simp [shouldInsertLine, hrate, hlog, huse, g1, hnest, hhas]
      · simp [shouldInsertLine, hrate, hlog, huse]
  rw [hred]
  exact scanUp_iff lines c

/-- C1 witness: the ancestry theorem applied with the cursor on line 2 of
the demo document, list mode off and no recorded insertion. -/
theorem shouldInsertLine_ancestry_witness :
    shouldInsertLine ⟨30, false⟩ none 0 demoAncestry 2 = true ↔
      ∃ j, j < 2 ∧ isLogHeader (getLine demoAncestry j) = true ∧
        ∀ k, j < k → k < 2 →
          isLogHeader (getLine demoAncestry k) = false ∧
          isNormalHeader (getLine demoAncestry k) = false :=
  shouldInsertLine_ancestry ⟨30, false⟩ none 0 demoAncestry 2 rfl (by decide) (Or.inl rfl)

/-! ## C10: the frame effect of a prefix insertion -/

/-- C10: a prefix insertion touches nothing but the cursor line and the
last-replacement instant: the line count is preserved, every line other
than the cursor line keeps its text, the cursor line becomes its old text
with the log header spliced in at the single computed offset, and the
returned last-replacement instant is the current one. -/
theorem insertLogLine_frame (lines : List Line) (l ch : Nat) (stamp : Line)
    (now : Int) (hl : l < lines.length) (hstamp : '\n' ∉ stamp) :
    (insertLogLine ⟨lines, ⟨l, ch⟩⟩ stamp now).1.lines.length = lines.length ∧
    (∀ i, i ≠ l →
      (insertLogLine ⟨lines, ⟨l, ch⟩⟩ stamp now).1.lines.get? i = lines.get? i) ∧
    (insertLogLine ⟨lines, ⟨l, ch⟩⟩ stamp now).1.lines.get? l =
      some ((getLine lines l).take (insertOffset (getLine lines l)) ++
        logHeaderText stamp ++
        (getLine lines l).drop (insertOffset (getLine lines l))) ∧
    (insertLogLine ⟨lines, ⟨l, ch⟩⟩ stamp now).2 = some now := by
  have hx : (insertLogLine ⟨lines, ⟨l, ch⟩⟩ stamp now).1.lines =
      lines.set l ((getLine lines l).take (insertOffset (getLine lines l)) ++
        logHeaderText stamp ++
        (getLine lines l).drop (insertOffset (getLine lines l))) := by
    simp only [insertLogLine]
    exact insertTextAt_no_newline lines l _ _ hl (logHeaderText_no_newline stamp hstamp)
  refine ⟨?_, ?_, ?_, rfl⟩
  · rw [hx, List.length_set]
  · intro i hi
    rw [hx, List.get?_set_ne _ _ (Ne.symm hi)]
  · rw [hx, List.get?_set_eq_of_lt _ hl]

/-- C10 witness: the frame theorem applied with the cursor on line 1 of a
three-line document, stamp 08:45, instant 5. -/
theorem insertLogLine_frame_witness :
    (insertLogLine ⟨demoFrameDoc, ⟨1, 2⟩⟩ (ofStr "08:45") 5).1.lines.length
        = demoFrameDoc.length ∧
    (∀ i, i ≠ 1 →
      (insertLogLine ⟨demoFrameDoc, ⟨1, 2⟩⟩ (ofStr "08:45") 5).1.lines.get? i
        = demoFrameDoc.get? i) ∧
    (insertLogLine ⟨demoFrameDoc, ⟨1, 2⟩⟩ (ofStr "08:45") 5).1.lines.get? 1 =
      some ((getLine demoFrameDoc 1).take (insertOffset (getLine demoFrameDoc 1)) ++
        logHeaderText (ofStr "08:45") ++
        (getLine demoFrameDoc 1).drop (insertOffset (getLine demoFrameDoc 1))) ∧
    (insertLogLine ⟨demoFrameDoc, ⟨1, 2⟩⟩ (ofStr "08:45") 5).2 = some 5 :=
  insertLogLine_frame demoFrameDoc 1 2 (ofStr "08:45") 5 (by decide) (by decide)

/-! ## C6: the latest dated header -/

lemma findAux_acc_isSome (rest : List Line) :
    ∀ (i0 : Nat) (p : Nat × YMD), (findAux rest i0 (some p)).isSome = true := by
  induction rest with
  | nil => intro i0 p; rfl
  | cons l ls ih =>
    intro i0 p
    rcases p with ⟨bi, bd⟩
    cases hx : extractHeaderDate l with
    | none => simpa [findAux, hx] using ih (i0 + 1) (bi, bd)
    | some d =>
      by_cases hA : isAfter d bd = true
      · simpa [findAux, hx, hA] using ih (i0 + 1) (i0, d)
      · have hA' : isAfter d bd = false := by simpa using hA
        simpa [findAux, hx, hA'] using ih (i0 + 1) (bi, bd)

lemma findAux_none_iff (rest : List Line) :
    ∀ i0 : Nat, findAux rest i0 none = none ↔ ∀ l ∈ rest, extractHeaderDate l = none := by
  induction rest with
  | nil => intro i0; simp [findAux]
  | cons l ls ih =>
    intro i0
    cases hx : extractHeaderDate l with
    | none =>
      simp only [findAux, hx]
      rw [ih (i0 + 1)]
      simp [List.forall_mem_cons, hx]
    | some d =>
      simp only [findAux, hx]
      constructor
      · intro h
        have hs := findAux_acc_isSome ls (i0 + 1) (i0, d)
        rw [h] at hs
        cases hs
      · intro h
        have := h l (List.mem_cons_self l ls)
        rw [hx] at this
        cases this

lemma findAux_some_spec (rest : List Line) :
    ∀ (i0 : Nat) (acc : Option (Nat × YMD)) (ri : Nat) (rd : YMD),
      (∀ bi bd, acc = some (bi, bd) → bi < i0) →
      findAux rest i0 acc = some (ri, rd) →
      ((acc = some (ri, rd) ∨
          ∃ k l, rest.get? k = some l ∧ extractHeaderDate l = some rd ∧ ri = i0 + k) ∧
        (∀ k l e, rest.get? k = some l → extractHeaderDate l = some e →
          ymdKey e ≤ ymdKey rd ∧ (i0 + k < ri → ymdKey e < ymdKey rd)) ∧
        (∀ bi bd, acc = some (bi, bd) →
          ymdKey bd ≤ ymdKey rd ∧ (bi < ri → ymdKey bd < ymdKey rd))) := by
  induction rest with
  | nil =>
    intro i0 acc ri rd hacc h
    simp only [findAux] at h
    refine ⟨Or.inl h, ?_, ?_⟩
    · intro k l e hk
      simp at hk
    · intro bi bd hbd
      have heq : (bi, bd) = (ri, rd) := Option.some.inj (hbd.symm.trans h)
      obtain ⟨h1, h2⟩ := Prod.mk.injEq bi bd ri rd ▸ heq
      subst h1; subst h2
      exact ⟨le_refl _, fun hlt => absurd hlt (lt_irrefl _)⟩
  | cons l ls ih =>
    intro i0 acc ri rd hacc h
    cases hx : extractHeaderDate l with
    | none =>
      rw [findAux, hx] at h
      have hacc' : ∀ bi bd, acc = some (bi, bd) → bi < i0 + 1 :=
        fun bi bd hb => Nat.lt_succ_of_lt (hacc bi bd hb)
      obtain ⟨src, dom, accc⟩ := ih (i0 + 1) acc ri rd hacc' h
      refine ⟨?_, ?_, accc⟩
      · rcases src with hA | ⟨k, l', hk, he, hri⟩
        · exact Or.inl hA
        · exact Or.inr ⟨k + 1, l', by simpa using hk, he, by omega⟩
      · intro k l' e hk he
        cases k with
        | zero =>
          rw [List.get?_cons_zero] at hk
          rw [Option.some.inj hk] at hx
          rw [hx] at he
          cases he
        | succ n =>
          rw [List.get?_cons_succ] at hk
          obtain ⟨hle, himp⟩ := dom n l' e hk he
          exact ⟨hle, fun hlt => himp (by omega)⟩
    | some d =>
      cases hacc0 : acc with
      | none =>
        simp only [findAux, hx, hacc0] at h
        have hacc' : ∀ bi bd, some (i0, d) = some (bi, bd) → bi < i0 + 1 := by
          intro bi bd hb
          obtain ⟨h1, _⟩ := Prod.mk.injEq i0 d bi bd ▸ Option.some.inj hb
          omega
        obtain ⟨src, dom, accc⟩ := ih (i0 + 1) (some (i0, d)) ri rd hacc' h
        have haccd := accc i0 d rfl
        refine ⟨?_, ?_, ?_⟩
        · rcases src with hA | ⟨k, l', hk, he, hri⟩
          · obtain ⟨h1, h2⟩ := Prod.mk.injEq i0 d ri rd ▸ Option.some.inj hA
            exact Or.inr ⟨0, l, List.get?_cons_zero, by rw [hx, h2], by omega⟩
          · exact Or.inr ⟨k + 1, l', by simpa using hk, he, by omega⟩
        · intro k l' e hk he
          cases k with
          | zero =>
            rw [List.get?_cons_zero] at hk
            rw [Option.some.inj hk] at hx
            rw [hx] at he
            have hed : d = e := Option.some.inj he
            subst hed
            exact ⟨haccd.1, fun hlt => haccd.2 (by omega)⟩
          | succ n =>
            rw [List.get?_cons_succ] at hk
            obtain ⟨hle, himp⟩ := dom n l' e hk he
            exact ⟨hle, fun hlt => himp (by omega)⟩
        · intro bi bd hb
          exact Option.noConfusion hb
      | some p =>
        rcases p with ⟨bi0, bd0⟩
        have hbi0 : bi0 < i0 := hacc bi0 bd0 hacc0
        by_cases hA : isAfter d bd0 = true
        · have hlt0 : ymdKey bd0 < ymdKey d := by
            simpa [isAfter] using hA
          simp only [findAux, hx, hacc0] at h
          rw [if_pos hA] at h
          have hacc' : ∀ bi bd, some (i0, d) = some (bi, bd) → bi < i0 + 1 := by
            intro bi bd hb
            obtain ⟨h1, _⟩ := Prod.mk.injEq i0 d bi bd ▸ Option.some.inj hb
            omega
          obtain ⟨src, dom, accc⟩ := ih (i0 + 1) (some (i0, d)) ri rd hacc' h
          have haccd := accc i0 d rfl
          refine ⟨?_, ?_, ?_⟩
          · rcases src with hA2 | ⟨k, l', hk, he, hri⟩
            · obtain ⟨h1, h2⟩ := Prod.mk.injEq i0 d ri rd ▸ Option.some.inj hA2
              exact Or.inr ⟨0, l, List.get?_cons_zero, by rw [hx, h2], by omega⟩
            · exact Or.inr ⟨k + 1, l', by simpa using hk, he, by omega⟩
          · intro k l' e hk he
            cases k with
            | zero =>
              rw [List.get?_cons_zero] at hk
              rw [Option.some.inj hk] at hx
              rw [hx] at he
              have hed : d = e := Option.some.inj he
              subst hed
              exact ⟨haccd.1, fun hlt => haccd.2 (by omega)⟩
            | succ n =>
              rw [List.get?_cons_succ] at hk
              obtain ⟨hle, himp⟩ := dom n l' e hk he
              exact ⟨hle, fun hlt => himp (by omega)⟩
          · intro bi bd hb
            obtain ⟨h1, h2⟩ := Prod.mk.injEq bi0 bd0 bi bd ▸ Option.some.inj hb
            subst h1; subst h2
            exact ⟨le_of_lt (lt_of_lt_of_le hlt0 haccd.1),
              fun _ => lt_of_lt_of_le hlt0 haccd.1⟩
        · have hge : ymdKey d ≤ ymdKey bd0 := by
            have := hA
            simp only [isAfter, decide_eq_true_eq] at this
            omega
          simp only [findAux, hx, hacc0] at h
          rw [if_neg hA] at h
          have hacc' : ∀ bi bd, some (bi0, bd0) = some (bi, bd) → bi < i0 + 1 := by
            intro bi bd hb
            obtain ⟨h1, _⟩ := Prod.mk.injEq bi0 bd0 bi bd ▸ Option.some.inj hb
            omega
          obtain ⟨src, dom, accc⟩ := ih (i0 + 1) (some (bi0, bd0)) ri rd hacc' h
          have haccb := accc bi0 bd0 rfl
          refine ⟨?_, ?_, ?_⟩
          · rcases src with hA2 | ⟨k, l', hk, he, hri⟩
            · exact Or.inl hA2
            · exact Or.inr ⟨k + 1, l', by simpa using hk, he, by omega⟩
          · intro k l' e hk he
            cases k with
            | zero =>
              rw [List.get?_cons_zero] at hk
              rw [Option.some.inj hk] at hx
              rw [hx] at he
              have hed : d = e := Option.some.inj he
              subst hed
              refine ⟨le_trans hge haccb.1, fun hlt => ?_⟩
              exact lt_of_le_of_lt hge (haccb.2 (by omega))
            | succ n =>
              rw [List.get?_cons_succ] at hk
              obtain ⟨hle, himp⟩ := dom n l' e hk he
              exact ⟨hle, fun hlt => himp (by omega)⟩
          · intro bi bd hb
            obtain ⟨h1, h2⟩ := Prod.mk.injEq bi0 bd0 bi bd ▸ Option.some.inj hb
            subst h1; subst h2
            exact haccb

lemma findLatest_none_iff (lines : List Line) :
    findLatestDatedHeader lines = none ↔
      ∀ j, j < lines.length → extractHeaderDate (getLine lines j) = none := by
  rw [findLatestDatedHeader, Option.map_eq_none', findAux_none_iff lines 0]
  constructor
  · intro h j hj
    have hg : lines.get? j = some (lines.get ⟨j, hj⟩) := List.get?_eq_get hj
    have hm : lines.get ⟨j, hj⟩ ∈ lines := List.get_mem lines j hj
    rw [getLine, hg]
    exact h _ hm
  · intro h l hl
    obtain ⟨j, hj⟩ := List.mem_iff_get?.mp hl
    have hjlt : j < lines.length := by
      by_contra hge
      rw [List.get?_eq_none.mpr (le_of_not_lt hge)] at hj
      cases hj
    have := h j hjlt
    rw [getLine, hj] at this
    simpa using this

lemma findLatest_some_spec (lines : List Line) (i : Nat)
    (h : findLatestDatedHeader lines = some i) :
    i < lines.length ∧ ∃ d, extractHeaderDate (getLine lines i) = some d ∧
      ∀ j, j < lines.length → ∀ e, extractHeaderDate (getLine lines j) = some e →
        ymdKey e ≤ ymdKey d ∧ (j < i → ymdKey e < ymdKey d) := by
  rw [findLatestDatedHeader] at h
  cases hfa : findAux lines 0 none with
  | none => rw [hfa] at h; cases h
  | some p =>
    rcases p with ⟨ri, rd⟩
    rw [hfa] at h
    have hri : ri = i := by simpa using h
    subst hri
    obtain ⟨src, dom, _⟩ :=
      findAux_some_spec lines 0 none ri rd (fun bi bd hb => by cases hb) hfa
    rcases src with habs | ⟨k, l, hk, he, hrik⟩
    · cases habs
    · have hkri : ri = k := by omega
      subst hkri
      have hlt : ri < lines.length := by
        by_contra hge
        rw [List.get?_eq_none.mpr (le_of_not_lt hge)] at hk
        cases hk
      refine ⟨hlt, rd, ?_, ?_⟩
      · rw [getLine, hk]
        exact he
      · intro j hj e hje
        have hg : lines.get? j = some (lines.get ⟨j, hj⟩) := List.get?_eq_get hj
        rw [getLine, hg] at hje
        have := dom j (lines.get ⟨j, hj⟩) e hg (by simpa using hje)
        exact ⟨this.1, fun hlt2 => this.2 (by omega)⟩

/-- C6: findLatestDatedHeader answers none exactly when no line of the
document is a dated header; and when it answers an index, that line is a
dated header whose date every dated line's date is at most, with strictly
earlier indices carrying strictly smaller dates — the tracked best is
replaced only on a strict isAfter improvement, so among equal dates the
earliest index wins, and the answer is determined by the dates alone, not
by the order the scan visits them. -/
theorem findLatestDatedHeader_spec (lines : List Line) :
    (findLatestDatedHeader lines = none ↔
        ∀ j, j < lines.length → extractHeaderDate (getLine lines j) = none) ∧
    (∀ i, findLatestDatedHeader lines = some i →
        i < lines.length ∧ ∃ d, extractHeaderDate (getLine lines i) = some d ∧
          ∀ j, j < lines.length → ∀ e, extractHeaderDate (getLine lines j) = some e →
            ymdKey e ≤ ymdKey d ∧ (j < i → ymdKey e < ymdKey d)) :=
  ⟨findLatest_none_iff lines, fun i h => findLatest_some_spec lines i h⟩

/-! ## C9: the jump command -/

lemma insertTextAt_newline_at_end (lines : List Line) (t : Nat)
    (ht : t + 1 = lines.length) :
    insertTextAt lines t (getLine lines t).length ['\n'] = lines ++ [[]] := by
  have htlt : t < lines.length := by omega
  have hget2 : lines[t]? = some lines[t] := List.getElem?_eq_getElem htlt
  have hcur : getLine lines t = lines[t] := by
    rw [getLine, List.get?_eq_getElem?, hget2]
    rfl
  have hdrop : lines.drop (t + 1) = [] := by rw [ht, List.drop_length]
  have h2 : lines.take t ++ [lines[t]] = lines := by
    have h1 : lines.take (t + 1) = lines.take t ++ [lines[t]] := by
      rw [List.take_succ, hget2]
      rfl
    rw [← h1, ht, List.take_length]
  rw [insertTextAt]
  have hsplit : splitNL ['\n'] = [[], []] := rfl
  rw [hsplit]
  simp only [replacementLines, withPost]
  rw [hcur, List.take_length, List.drop_length, hdrop]
  have hfin : lines ++ [[]] = List.take t lines ++ [lines[t], []] := by
    conv_lhs => rw [← h2]
    simp only [List.append_assoc, List.singleton_append]
  rw [hfin]
  simp

/-- C9: the jump command reports a notice and mutates neither the document
nor the cursor when no dated header exists; otherwise it reports nothing,
leaves the document unchanged unless the found header is the last line — in
which case exactly one empty line is appended below it — and always lands
the cursor at column zero of the line directly under the header, a line
that exists in the resulting document. -/
theorem jump_command_spec (st : EditorState) :
    (findLatestDatedHeader st.lines = none →
        jumpToLatestLogHeader st = (st, true)) ∧
    (∀ t, findLatestDatedHeader st.lines = some t →
        (jumpToLatestLogHeader st).2 = false ∧
        (jumpToLatestLogHeader st).1.cursor = ⟨t + 1, 0⟩ ∧
        t + 1 < (jumpToLatestLogHeader st).1.lines.length ∧
        (t + 1 = st.lines.length →
          (jumpToLatestLogHeader st).1.lines = st.lines ++ [[]]) ∧
        (t + 1 < st.lines.length →
          (jumpToLatestLogHeader st).1.lines = st.lines)) := by
  constructor
  · intro h
    simp [jumpToLatestLogHeader, h]
  · intro t h
    have htlt : t < st.lines.length := (findLatest_some_spec st.lines t h).1
    by_cases hlast : st.lines.length ≤ t + 1
    · have heq : t + 1 = st.lines.length := by omega
      have hlines : insertTextAt st.lines t (getLine st.lines t).length ['\n']
          = st.lines ++ [[]] := insertTextAt_newline_at_end st.lines t heq
      have hj : jumpToLatestLogHeader st = (⟨st.lines ++ [[]], ⟨t + 1, 0⟩⟩, false) := by
        simp only [jumpToLatestLogHeader, h]
        rw [if_pos hlast, hlines]
        have hmin : min (t + 1) ((st.lines ++ [[]]).length - 1) = t + 1 := by
          simp only [List.length_append, List.length_cons, List.length_nil]
          omega
        rw [hmin]
      rw [hj]
      refine ⟨rfl, rfl, ?_, fun _ => rfl, fun hc => absurd hc (by omega)⟩
      show t + 1 < (st.lines ++ [[]]).length
      simp only [List.length_append, List.length_cons, List.length_nil]
      omega
    · have hlt : t + 1 < st.lines.length := by omega
      have hj : jumpToLatestLogHeader st = (⟨st.lines, ⟨t + 1, 0⟩⟩, false) := by
        simp only [jumpToLatestLogHeader, h]
        rw [if_neg hlast]
        have hmin : min (t + 1) (st.lines.length - 1) = t + 1 := by omega
        rw [hmin]
      rw [hj]
      exact ⟨rfl, rfl, hlt, fun hc => absurd hc (by omega), fun _ => rfl⟩

end Timelog
